import Mathlib

set_option maxRecDepth 4000

/-!
Verification development for the call-session bridge repository.

Shallow embedding of:
  - services/audio_converter_simple.py  (SimpleAudioConverter)
  - services/gemini_client.py           (GeminiLiveClient.receive_audio_responses)
  - services/media_stream_handler.py    (MediaStreamHandler.handle_stream, cleanup)
  - services/gemini_connection_pool.py  (GeminiConnectionPool)

Audio byte buffers are modelled as `List Nat` (each entry one byte, < 256 is
not enforced structurally since none of the verified properties depend on it).
Calls into the external `audioop` C library are modelled as oracle functions
returning `ConvResult`: `ok data` for a successful conversion, `err` for the
exceptional case that the Python code catches with `except Exception`.
-/

/-- Outcome of a call into an external conversion routine (audioop / scipy):
either a successful result or a raised exception that the caller catches. -/
inductive ConvResult (α : Type) where
  | ok (v : α) : ConvResult α
  | err : ConvResult α
deriving DecidableEq, Repr

namespace SimpleAudioConverter

/-- The μ-law decoding table `exp_lut` of `mulaw_to_pcm_fallback`. -/
def exp_lut : List Nat := [0, 132, 396, 924, 1980, 4092, 8316, 16764]

/-- One byte of the reference bit-manipulation μ-law decode of
`mulaw_to_pcm_fallback` (lines 59-71 of audio_converter_simple.py):
complement the byte (uint8), split into sign / exponent / mantissa,
rebuild the linear sample. -/
def mulawDecodeByte (b : Nat) : Int :=
  let v := 255 - b % 256
  let sign := v &&& 0x80
  let exponent := (v >>> 4) &&& 0x07
  let mantissa := v &&& 0x0F
  let sample : Int := ((exp_lut.getD exponent 0) + (mantissa <<< (exponent + 3)) : Nat)
  if sign ≠ 0 then -sample else sample

/-- Serialise one signed 16-bit sample to two little-endian bytes,
as `numpy.int16 tobytes` does. -/
def int16ToBytesLE (x : Int) : List Nat :=
  let u := (x % 65536).toNat
  [u % 256, u / 256]

/-- `SimpleAudioConverter.mulaw_to_pcm_fallback`: the direct bit-manipulation
reference decoder used when audioop fails. Empty input yields empty output. -/
def mulaw_to_pcm_fallback (mulaw_data : List Nat) : List Nat :=
  if mulaw_data = [] then []
  else (mulaw_data.map (fun b => int16ToBytesLE (mulawDecodeByte b))).flatten

/-- `SimpleAudioConverter.mulaw_to_pcm`: empty input yields empty output;
otherwise call `audioop.ulaw2lin` (the oracle); if it raises, fall back to
the reference decoder. Never raises. -/
def mulaw_to_pcm (ulaw2lin : List Nat → ConvResult (List Nat))
    (mulaw_data : List Nat) : List Nat :=
  if mulaw_data = [] then []
  else
    match ulaw2lin mulaw_data with
    | ConvResult.ok pcm => pcm
    | ConvResult.err => mulaw_to_pcm_fallback mulaw_data

/-- `SimpleAudioConverter.pcm_to_mulaw`: empty input yields empty output;
otherwise call `audioop.lin2ulaw` (the oracle); if it raises, return empty
output directly (the `except` branch returns the empty byte string; there is
no fallback encoder in the source). Never raises. -/
def pcm_to_mulaw (lin2ulaw : List Nat → ConvResult (List Nat))
    (pcm_data : List Nat) : List Nat :=
  if pcm_data = [] then []
  else
    match lin2ulaw pcm_data with
    | ConvResult.ok mulaw => mulaw
    | ConvResult.err => []

/-- `SimpleAudioConverter.resample_audio`: if the input is empty or the two
rates coincide, return the input unchanged; otherwise call `audioop.ratecv`
(the oracle); if it raises, fall back to scipy resampling (an external
floating-point routine, modelled as a second oracle). -/
def resample_audio (ratecv : List Nat → Nat → Nat → ConvResult (List Nat))
    (scipyResample : List Nat → Nat → Nat → List Nat)
    (audio_data : List Nat) (from_rate to_rate : Nat) : List Nat :=
  if audio_data = [] ∨ from_rate = to_rate then audio_data
  else
    match ratecv audio_data from_rate to_rate with
    | ConvResult.ok conv => conv
    | ConvResult.err => scipyResample audio_data from_rate to_rate

end SimpleAudioConverter

/-- Claim C9: resampling is the identity when source and target rates are
equal: for every buffer, every pair of oracles and every rate `r`,
`resample_audio x r r = x` (the input is returned unchanged). -/
theorem resample_identity_on_equal_rates
    (ratecv : List Nat → Nat → Nat → ConvResult (List Nat))
    (scipyResample : List Nat → Nat → Nat → List Nat)
    (audio_data : List Nat) (r : Nat) :
    SimpleAudioConverter.resample_audio ratecv scipyResample audio_data r r
      = audio_data := by
  simp [SimpleAudioConverter.resample_audio]

/-- Claim C5, counterexample: encode does NOT share the fallback-then-empty
failure policy of decode. With an oracle that raises on every input, encode of
the nonempty buffer `[0, 0]` (one zero sample) gives up immediately with empty
output, while decode of a nonempty buffer produces the nonempty output of the
bit-manipulation fallback decoder: the two failure policies differ. -/
theorem pcm_to_mulaw_no_fallback_counterexample :
    SimpleAudioConverter.pcm_to_mulaw (fun _ => ConvResult.err) [0, 0] = []
    ∧ SimpleAudioConverter.mulaw_to_pcm (fun _ => ConvResult.err) [255] = [0, 0]
    ∧ ([0, 0] : List Nat) ≠ [] := by
  refine ⟨rfl, ?_, by decide⟩
  decide

/-- Claim C5, amended: encode never raises and returns empty output for empty
input, but unlike decode it has no fallback converter: on an internal
conversion failure it returns empty output directly. -/
theorem pcm_to_mulaw_failure_policy
    (lin2ulaw : List Nat → ConvResult (List Nat)) (pcm : List Nat)
    (h : lin2ulaw pcm = ConvResult.err) :
    SimpleAudioConverter.pcm_to_mulaw lin2ulaw [] = []
    ∧ SimpleAudioConverter.pcm_to_mulaw lin2ulaw pcm = [] := by
  constructor
  · rfl
  · unfold SimpleAudioConverter.pcm_to_mulaw
    by_cases hp : pcm = []
    · simp [hp]
    · simp [hp, h]

/-- Witness for the amended C5 theorem at the always-failing oracle and the
concrete nonempty input `[0, 0]`. -/
theorem pcm_to_mulaw_failure_policy_witness :
    SimpleAudioConverter.pcm_to_mulaw (fun _ => ConvResult.err) [] = []
    ∧ SimpleAudioConverter.pcm_to_mulaw (fun _ => ConvResult.err) [0, 0] = [] :=
  pcm_to_mulaw_failure_policy (fun _ => ConvResult.err) [0, 0] rfl

namespace GeminiLiveClient

/-- One part of a model turn in a backend response event: optional text and
optional inline audio data (`part.inline_data.data`, a byte buffer). -/
structure RespPart where
  text : Option String
  inlineData : Option (List Nat)
deriving DecidableEq, Repr

/-- The `server_content` of a backend response event: interruption flag,
optional model turn (a list of parts) and turn-complete flag. -/
structure ServerContent where
  interrupted : Bool
  modelTurnParts : Option (List RespPart)
  turnComplete : Bool
deriving DecidableEq, Repr

/-- One backend response event as delivered by `session.receive()`. -/
structure GeminiResponse where
  serverContent : Option ServerContent
deriving DecidableEq, Repr

/-- The audio chunks one response event contributes in
`receive_audio_responses`: nothing when there is no `server_content`, nothing
when the event is an interruption notification, otherwise the nonempty
`inline_data.data` buffers of the model-turn parts, in part order. -/
def eventChunks (e : GeminiResponse) : List (List Nat) :=
  match e.serverContent with
  | none => []
  | some sc =>
    if sc.interrupted then []
    else
      match sc.modelTurnParts with
      | none => []
      | some parts =>
        parts.filterMap (fun p =>
          match p.inlineData with
          | some d => if d = [] then none else some d
          | none => none)

/-- The response loop of `GeminiLiveClient.receive_audio_responses`
(lines 197-252 of gemini_client.py). `count` is `response_count`. Each event
increments the counter first; events without `server_content` and interruption
notifications `continue` (skipping the safety break at the bottom of the loop
body); other events yield their audio chunks and then break out of the loop
when the counter has exceeded 1000. -/
def receiveLoop : List GeminiResponse → Nat → List (List Nat)
  | [], _ => []
  | e :: rest, count =>
    match e.serverContent with
    | none => receiveLoop rest (count + 1)
    | some sc =>
      if sc.interrupted then receiveLoop rest (count + 1)
      else
        eventChunks e ++
          (if count + 1 > 1000 then [] else receiveLoop rest (count + 1))

/-- `GeminiLiveClient.receive_audio_responses`: returns nothing when not
connected; otherwise runs the response loop over the events the session
delivers, starting with `response_count = 0`. -/
def receive_audio_responses (connected : Bool)
    (events : List GeminiResponse) : List (List Nat) :=
  if connected then receiveLoop events 0 else []

/-- A response event carrying exactly one one-byte audio chunk `[1]`. -/
def evAudio : GeminiResponse :=
  { serverContent := some
      { interrupted := false
        modelTurnParts := some [{ text := none, inlineData := some [1] }]
        turnComplete := false } }

/-- A response event flagged as an interruption notification. -/
def evInterrupted : GeminiResponse :=
  { serverContent := some
      { interrupted := true
        modelTurnParts := some [{ text := none, inlineData := some [9] }]
        turnComplete := false } }

end GeminiLiveClient

/-- Helper: below the safety threshold the response loop yields exactly the
concatenation of the per-event audio chunks, in arrival order. -/
theorem receiveLoop_eq_flatten (events : List GeminiLiveClient.GeminiResponse)
    (count : Nat) (h : count + events.length ≤ 1000) :
    GeminiLiveClient.receiveLoop events count
      = (events.map GeminiLiveClient.eventChunks).flatten := by
  induction events generalizing count with
  | nil => rfl
  | cons e rest ih =>
    have hrest : (count + 1) + rest.length ≤ 1000 := by
      simp at h ⊢; omega
    have hcount : ¬ (count + 1 > 1000) := by
      simp at h; omega
    obtain ⟨scOpt⟩ := e
    cases scOpt with
    | none =>
      rw [GeminiLiveClient.receiveLoop]
      simp [GeminiLiveClient.eventChunks, ih (count + 1) hrest]
    | some sc =>
      rw [GeminiLiveClient.receiveLoop]
      cases hint : sc.interrupted with
      | true =>
        simp [hint, GeminiLiveClient.eventChunks, ih (count + 1) hrest]
      | false =>
        simp [hint, hcount, GeminiLiveClient.eventChunks, ih (count + 1) hrest]

/-- Claim C4, amended: `receive_audio_responses` yields response audio chunks
in arrival order, and for event sequences of at most 1000 events no truncation
occurs (the output is exactly the concatenation of the per-event chunks); the
implementation does impose a safety cap: processing stops once the response
counter exceeds 1000. -/
theorem receive_responses_ordered_below_cap
    (events : List GeminiLiveClient.GeminiResponse)
    (h : events.length ≤ 1000) :
    GeminiLiveClient.receive_audio_responses true events
      = (events.map GeminiLiveClient.eventChunks).flatten := by
  unfold GeminiLiveClient.receive_audio_responses
  simpa using receiveLoop_eq_flatten events 0 (by simpa using h)

/-- Witness for the amended C4 theorem on a single audio event. -/
theorem receive_responses_ordered_below_cap_witness :
    GeminiLiveClient.receive_audio_responses true [GeminiLiveClient.evAudio]
      = [[1]] :=
  receive_responses_ordered_below_cap [GeminiLiveClient.evAudio] (by decide)

/-- Helper: one step of the response loop on the one-chunk audio event. -/
theorem receiveLoop_evAudio_cons (rest : List GeminiLiveClient.GeminiResponse)
    (count : Nat) :
    GeminiLiveClient.receiveLoop (GeminiLiveClient.evAudio :: rest) count
      = [1] :: (if count + 1 > 1000 then []
                else GeminiLiveClient.receiveLoop rest (count + 1)) := by
  simp [GeminiLiveClient.receiveLoop, GeminiLiveClient.evAudio,
    GeminiLiveClient.eventChunks]

/-- Helper: closed form for the number of chunks the loop yields from a run
of identical one-chunk audio events, exposing the safety cap. -/
theorem receiveLoop_replicate_evAudio_length (n : Nat) :
    ∀ count : Nat, count ≤ 1000 →
    (GeminiLiveClient.receiveLoop
        (List.replicate n GeminiLiveClient.evAudio) count).length
      = min n (1001 - count) := by
  induction n with
  | zero => intro count h; simp [GeminiLiveClient.receiveLoop]
  | succ n ih =>
    intro count h
    rw [List.replicate_succ, receiveLoop_evAudio_cons]
    by_cases hc : count + 1 > 1000
    · rw [if_pos hc]; simp; omega
    · rw [if_neg hc]
      simp only [List.length_cons, ih (count + 1) (by omega)]
      omega

/-- Claim C4, counterexample: the response sequence has an
implementation-imposed cap. Feeding 1002 events that each carry one audio
chunk yields only 1001 chunks (the loop breaks once the response counter
exceeds 1000), while the full arrival-order concatenation has 1002 chunks. -/
theorem receive_responses_cap_counterexample :
    (GeminiLiveClient.receive_audio_responses true
        (List.replicate 1002 GeminiLiveClient.evAudio)).length = 1001
    ∧ ((List.replicate 1002 GeminiLiveClient.evAudio).map
        GeminiLiveClient.eventChunks).flatten.length = 1002 := by
  constructor
  · have := receiveLoop_replicate_evAudio_length 1002 0 (by omega)
    simpa [GeminiLiveClient.receive_audio_responses] using this
  · simp [GeminiLiveClient.eventChunks, GeminiLiveClient.evAudio,
      List.map_replicate]

/-- Claim C8: an interruption notification (an event whose interrupted flag is
set) is skipped without yielding any audio chunk, and the response loop
continues with the subsequent events rather than terminating — at any point of
the sequence, even past the safety counter, the loop on such an event just
moves on with the counter incremented. -/
theorem interruption_skipped_not_terminating
    (e : GeminiLiveClient.GeminiResponse) (sc : GeminiLiveClient.ServerContent)
    (rest : List GeminiLiveClient.GeminiResponse) (count : Nat)
    (h1 : e.serverContent = some sc) (h2 : sc.interrupted = true) :
    GeminiLiveClient.receiveLoop (e :: rest) count
        = GeminiLiveClient.receiveLoop rest (count + 1)
    ∧ GeminiLiveClient.eventChunks e = [] := by
  obtain ⟨scOpt⟩ := e
  simp only [] at h1
  subst h1
  constructor
  · rw [GeminiLiveClient.receiveLoop]
    simp [h2]
  · simp [GeminiLiveClient.eventChunks, h2]

/-- Witness for the C8 theorem: a concrete interrupted event followed by an
audio event — the interrupted event contributes nothing and processing
reaches the audio event. -/
theorem interruption_skipped_not_terminating_witness :
    GeminiLiveClient.receiveLoop
        [GeminiLiveClient.evInterrupted, GeminiLiveClient.evAudio] 0
      = GeminiLiveClient.receiveLoop [GeminiLiveClient.evAudio] 1
    ∧ GeminiLiveClient.eventChunks GeminiLiveClient.evInterrupted = [] :=
  interruption_skipped_not_terminating GeminiLiveClient.evInterrupted
    { interrupted := true
      modelTurnParts := some [{ text := none, inlineData := some [9] }]
      turnComplete := false }
    [GeminiLiveClient.evAudio] 0 rfl rfl

namespace MediaStreamHandler

/-- One framed message arriving on the telephony (Twilio) transport, after
JSON parsing: the `event` discriminator with the fields the handler reads. -/
inductive TwilioEvent where
  | connectedMsg
  | startMsg (streamSid : String) (callSid : String)
  | mediaMsg (payload : List Nat)
  | stopMsg
  | otherMsg (event : String)
deriving DecidableEq, Repr

/-- The phases of the call-session state machine of the spec, realised by
`MediaStreamHandler.handle_stream`. -/
inductive Phase where
  | AwaitingHandshake
  | AwaitingStreamStart
  | Bridging
  | Draining
  | Closed
deriving DecidableEq, Repr

/-- Outcome of one full run of `handle_stream`: the final phase, whether the
`finally` block executed `cleanup`, whether an exception escaped the handler
(the whole body sits inside `try ... except Exception ... finally`, so none
ever does), and how many media frames the bridging loop processed. -/
structure StreamResult where
  finalPhase : Phase
  cleanupRan : Bool
  uncaughtExc : Bool
  mediaForwarded : Nat
deriving DecidableEq, Repr

/-- The message loop of `MediaStreamHandler.receive_from_twilio`
(lines 182-236 of media_stream_handler.py): process `media` frames in arrival
order, break on `stop`, silently ignore every other event type; return the
number of media frames forwarded. -/
def receive_from_twilio : List TwilioEvent → Nat → Nat
  | [], n => n
  | TwilioEvent.mediaMsg _ :: rest, n => receive_from_twilio rest (n + 1)
  | TwilioEvent.stopMsg :: _, n => n
  | _ :: rest, n => receive_from_twilio rest n

/-- `MediaStreamHandler.handle_stream`: expect `connected` first (anything
else aborts), then `start` (anything else aborts), then connect to the
backend (`geminiOk` is the outcome of `connect_to_gemini`; on failure the
session aborts), then run the bridging loop until `stop` or end of transport.
Every return path passes through the `finally` block, which runs `cleanup`,
so the final phase is always `Closed` with cleanup run and no exception
escaping. -/
def handle_stream (geminiOk : Bool) (msgs : List TwilioEvent) : StreamResult :=
  match msgs with
  | TwilioEvent.connectedMsg :: rest =>
    match rest with
    | TwilioEvent.startMsg _ _ :: rest2 =>
      if geminiOk then
        { finalPhase := Phase.Closed, cleanupRan := true,
          uncaughtExc := false,
          mediaForwarded := receive_from_twilio rest2 0 }
      else
        { finalPhase := Phase.Closed, cleanupRan := true,
          uncaughtExc := false, mediaForwarded := 0 }
    | _ =>
      { finalPhase := Phase.Closed, cleanupRan := true,
        uncaughtExc := false, mediaForwarded := 0 }
  | _ =>
    { finalPhase := Phase.Closed, cleanupRan := true,
      uncaughtExc := false, mediaForwarded := 0 }

/-- The resource-release actions available to `MediaStreamHandler.cleanup`.
`poolRelease` stands for `connection_pool.release(call_sid)` — present in the
vocabulary so its absence from the cleanup path can be stated. -/
inductive CleanupAction where
  | closeInputFile
  | closeOutputFile
  | closeBackendSession
  | closeTransport
  | poolRelease (call_sid : String)
deriving DecidableEq, Repr

/-- The handler fields `cleanup` consults (lines 301-358 of
media_stream_handler.py): whether recording is enabled, whether the two
recording files were opened, whether a backend client exists, and the stored
call id. -/
structure HandlerState where
  recording_enabled : Bool
  input_audio_file : Bool
  output_audio_file : Bool
  gemini_client : Bool
  call_sid : Option String
deriving DecidableEq, Repr

/-- `MediaStreamHandler.cleanup`: close the input recording file (when
recording and open), close the output recording file (when recording and
open), close the backend client (when one exists), close the transport —
in that order. No step invokes the connection pool. -/
def cleanup (h : HandlerState) : List CleanupAction :=
  (if h.recording_enabled ∧ h.input_audio_file
    then [CleanupAction.closeInputFile] else [])
  ++ (if h.recording_enabled ∧ h.output_audio_file
    then [CleanupAction.closeOutputFile] else [])
  ++ (if h.gemini_client then [CleanupAction.closeBackendSession] else [])
  ++ [CleanupAction.closeTransport]

/-- A handler state as it stands at the end of a typical bridged call:
recording on, both files open, backend client connected, call id stored. -/
def endOfCallState : HandlerState :=
  { recording_enabled := true, input_audio_file := true,
    output_audio_file := true, gemini_client := true,
    call_sid := some "CA123" }

end MediaStreamHandler

/-- Claim C7: if the first framed message from the telephony transport is
anything other than the connection acknowledgement — for instance a `start`
message arriving first — the session aborts to `Closed` and runs `cleanup`,
without an uncaught exception and without processing any media. -/
theorem first_message_not_connected_aborts
    (geminiOk : Bool) (m : MediaStreamHandler.TwilioEvent)
    (rest : List MediaStreamHandler.TwilioEvent)
    (h : m ≠ MediaStreamHandler.TwilioEvent.connectedMsg) :
    MediaStreamHandler.handle_stream geminiOk (m :: rest)
      = { finalPhase := MediaStreamHandler.Phase.Closed, cleanupRan := true,
          uncaughtExc := false, mediaForwarded := 0 } := by
  cases m with
  | connectedMsg => exact absurd rfl h
  | startMsg s c => rfl
  | mediaMsg p => rfl
  | stopMsg => rfl
  | otherMsg e => rfl

/-- Witness for the C7 theorem: a `start` message arriving before
`connected`. -/
theorem first_message_not_connected_aborts_witness :
    MediaStreamHandler.handle_stream true
        [MediaStreamHandler.TwilioEvent.startMsg "S1" "C1",
         MediaStreamHandler.TwilioEvent.connectedMsg]
      = { finalPhase := MediaStreamHandler.Phase.Closed, cleanupRan := true,
          uncaughtExc := false, mediaForwarded := 0 } :=
  first_message_not_connected_aborts true
    (MediaStreamHandler.TwilioEvent.startMsg "S1" "C1")
    [MediaStreamHandler.TwilioEvent.connectedMsg] (by decide)

/-- Claim C1, counterexample: at the end of a call (backend client present,
call id stored) `cleanup` closes the backend session and the transport but
never invokes the connection pool release path for the stored call id — the
handler creates its backend client directly and bypasses the pool. -/
theorem cleanup_never_calls_pool_release_counterexample :
    MediaStreamHandler.CleanupAction.closeBackendSession
        ∈ MediaStreamHandler.cleanup MediaStreamHandler.endOfCallState
    ∧ MediaStreamHandler.CleanupAction.closeTransport
        ∈ MediaStreamHandler.cleanup MediaStreamHandler.endOfCallState
    ∧ MediaStreamHandler.CleanupAction.poolRelease "CA123"
        ∉ MediaStreamHandler.cleanup MediaStreamHandler.endOfCallState := by
  decide

/-- Claim C1, amended: when the session reaches its terminal `Closed` state,
`cleanup` always closes the transport and, whenever a backend client exists,
closes the backend session; but the backend connection is NOT released
through the connection pool release path — no cleanup step is a pool
release, for any call id. -/
theorem cleanup_releases_resources
    (h : MediaStreamHandler.HandlerState) :
    MediaStreamHandler.CleanupAction.closeTransport
        ∈ MediaStreamHandler.cleanup h
    ∧ (h.gemini_client = true →
        MediaStreamHandler.CleanupAction.closeBackendSession
          ∈ MediaStreamHandler.cleanup h)
    ∧ ∀ sid : String,
        MediaStreamHandler.CleanupAction.poolRelease sid
          ∉ MediaStreamHandler.cleanup h := by
  refine ⟨?_, ?_, ?_⟩
  · simp [MediaStreamHandler.cleanup]
  · intro hg
    simp [MediaStreamHandler.cleanup, hg]
  · intro sid
    simp [MediaStreamHandler.cleanup]

/-- Witness for the amended C1 theorem at the end-of-call handler state. -/
theorem cleanup_releases_resources_witness :
    MediaStreamHandler.CleanupAction.closeBackendSession
        ∈ MediaStreamHandler.cleanup MediaStreamHandler.endOfCallState
    ∧ MediaStreamHandler.CleanupAction.poolRelease "CA1"
        ∉ MediaStreamHandler.cleanup MediaStreamHandler.endOfCallState :=
  ⟨(cleanup_releases_resources MediaStreamHandler.endOfCallState).2.1 rfl,
   (cleanup_releases_resources MediaStreamHandler.endOfCallState).2.2 "CA1"⟩

namespace GeminiConnectionPool

/-- Connections are identified by abstract ids; `next_id` in the pool state is
the supply of fresh ids, so a connection created by `_create_connection` is
the current `next_id`. -/
abbrev ConnId := Nat

/-- Side effects a pool operation performs besides updating the pool state:
closing a connection (`_close_connection`), spawning a background refill task
(`asyncio.create_task(self._refill_pool())`, fire-and-forget), and spawning
the maintenance task. -/
inductive PoolEffect where
  | closeConn (c : ConnId)
  | spawnRefill
  | spawnMaintenance
deriving DecidableEq, Repr

/-- The mutable state of `GeminiConnectionPool`: target size, the FIFO queue
`available_connections` (head = next `get_nowait`), the dict
`in_use_connections` (call sid → connection), the `_running` flag; plus two
history fields that record observable facts without influencing behaviour:
`closed` collects every connection `_close_connection` was called on, and
`handed` collects every connection `acquire` has returned (most recent
first). -/
structure PoolState where
  pool_size : Nat
  available : List ConnId
  in_use : List (String × ConnId)
  running : Bool
  closed : List ConnId
  handed : List ConnId
  next_id : ConnId
deriving Repr

/-- Python dict assignment `d[k] = v`: the new binding replaces any existing
binding of `k`. -/
def dictInsert (k : String) (v : ConnId) (d : List (String × ConnId)) :
    List (String × ConnId) :=
  (k, v) :: d.filter (fun p => p.1 ≠ k)

/-- Python `d.pop(k, None)`: the removed value (if any) and the remaining
dict. -/
def dictPop (k : String) (d : List (String × ConnId)) :
    Option ConnId × List (String × ConnId) :=
  match d.find? (fun p => p.1 = k) with
  | some p => (some p.2, d.filter (fun q => q.1 ≠ k))
  | none => (none, d)

/-- Look a call sid up in the in-use dict. -/
def dictFind (k : String) (d : List (String × ConnId)) : Option ConnId :=
  (d.find? (fun p => p.1 = k)).map Prod.snd

/-- The creation loop of `GeminiConnectionPool._refill_pool` (lines 159-173):
make `needed` attempts, one by one; the oracle list `oks` says which
`_create_connection` calls succeed (a missing entry is a failure); each
success is `put_nowait` onto the available queue. The queue is unbounded, so
`QueueFull` never fires. -/
def refillLoop : PoolState → Nat → List Bool → PoolState
  | s, 0, _ => s
  | s, n + 1, oks =>
    if oks.headD false then
      refillLoop { s with available := s.available ++ [s.next_id],
                          next_id := s.next_id + 1 } n oks.tail
    else refillLoop s n oks.tail

/-- `GeminiConnectionPool._refill_pool`: no-op unless running; otherwise
compute `needed = pool_size - available - in_use` (clamped at zero) and run
the creation loop. -/
def refill_pool (s : PoolState) (oks : List Bool) : PoolState :=
  if s.running then
    refillLoop s (s.pool_size - s.available.length - s.in_use.length) oks
  else s

/-- `GeminiConnectionPool.start`: set `_running`, perform one initial refill,
spawn the maintenance task. -/
def start (s : PoolState) (oks : List Bool) : PoolState × List PoolEffect :=
  (refill_pool { s with running := true } oks, [PoolEffect.spawnMaintenance])

/-- `GeminiConnectionPool.stop`: clear `_running`, drain the available queue
closing every connection, then close every in-use connection. The in-use
dict itself is left untouched by the source. -/
def stop (s : PoolState) : PoolState × List PoolEffect :=
  let inUseConns := s.in_use.map Prod.snd
  ({ s with running := false, available := [],
            closed := s.available ++ inUseConns ++ s.closed },
   (s.available ++ inUseConns).map PoolEffect.closeConn)

/-- `GeminiConnectionPool.acquire` (lines 62-101): pop the available queue
non-blockingly; a popped connection that validates as `_connected` (the
`conn` oracle) is recorded in-use for `call_sid` and a background refill task
is spawned; a stale popped connection is closed and replaced by a fresh
creation; with an empty queue a fresh connection is created synchronously
(`create_ok` is the outcome of `_create_connection`). The fresh-creation
paths spawn no refill task. Returns the connection handed out (if any), the
new state and the effects. -/
def acquire (s : PoolState) (call_sid : String) (conn : ConnId → Bool)
    (create_ok : Bool) : Option ConnId × PoolState × List PoolEffect :=
  match s.available with
  | c :: rest =>
    if conn c then
      (some c,
       { s with available := rest,
                in_use := dictInsert call_sid c s.in_use,
                handed := c :: s.handed },
       [PoolEffect.spawnRefill])
    else
      if create_ok then
        (some s.next_id,
         { s with available := rest,
                  closed := c :: s.closed,
                  in_use := dictInsert call_sid s.next_id s.in_use,
                  handed := s.next_id :: s.handed,
                  next_id := s.next_id + 1 },
         [PoolEffect.closeConn c])
      else
        (none,
         { s with available := rest, closed := c :: s.closed },
         [PoolEffect.closeConn c])
  | [] =>
    if create_ok then
      (some s.next_id,
       { s with in_use := dictInsert call_sid s.next_id s.in_use,
                handed := s.next_id :: s.handed,
                next_id := s.next_id + 1 },
       [])
    else (none, s, [])

/-- `GeminiConnectionPool.release` (lines 103-116): pop the call sid from the
in-use dict; when a connection was associated, close it unconditionally and
spawn a background refill task; otherwise do nothing. -/
def release (s : PoolState) (call_sid : String) :
    PoolState × List PoolEffect :=
  match dictPop call_sid s.in_use with
  | (some c, d) =>
    ({ s with in_use := d, closed := c :: s.closed },
     [PoolEffect.closeConn c, PoolEffect.spawnRefill])
  | (none, _) => (s, [])

/-- One externally triggered pool operation, with the oracles resolving the
outcomes of the external calls it makes. -/
inductive PoolStep where
  | sStart (oks : List Bool)
  | sStop
  | sAcquire (call_sid : String) (conn : ConnId → Bool) (create_ok : Bool)
  | sRelease (call_sid : String)
  | sRefill (oks : List Bool)

/-- State reached by applying one pool operation (effects dropped). -/
def applyStep (s : PoolState) : PoolStep → PoolState
  | PoolStep.sStart oks => (start s oks).1
  | PoolStep.sStop => (stop s).1
  | PoolStep.sAcquire call_sid conn create_ok =>
    (acquire s call_sid conn create_ok).2.1
  | PoolStep.sRelease call_sid => (release s call_sid).1
  | PoolStep.sRefill oks => refill_pool s oks

/-- Run a sequence of pool operations from a state. -/
def runSteps (s : PoolState) : List PoolStep → PoolState
  | [] => s
  | st :: rest => runSteps (applyStep s st) rest

/-- The freshly constructed pool of `GeminiConnectionPool.__init__`. -/
def initPool (pool_size : Nat) : PoolState :=
  { pool_size := pool_size, available := [], in_use := [], running := false,
    closed := [], handed := [], next_id := 0 }

end GeminiConnectionPool

namespace GeminiConnectionPool

/-- The structural pool invariant: no connection appears twice across the
available queue and the in-use dict, no connection was ever handed out twice,
available connections were never handed out, and every recorded connection id
is below the fresh-id supply. -/
def PoolInv (s : PoolState) : Prop :=
  (s.available ++ s.in_use.map Prod.snd).Nodup
  ∧ s.handed.Nodup
  ∧ (∀ c ∈ s.available, c ∉ s.handed)
  ∧ (∀ c ∈ s.available, c < s.next_id)
  ∧ (∀ c ∈ s.in_use.map Prod.snd, c < s.next_id)
  ∧ (∀ c ∈ s.handed, c < s.next_id)

theorem dictInsert_snd (k : String) (v : ConnId) (d : List (String × ConnId)) :
    (dictInsert k v d).map Prod.snd
      = v :: (d.filter (fun p => p.1 ≠ k)).map Prod.snd := rfl

theorem filter_snd_sublist (p : String × ConnId → Bool)
    (d : List (String × ConnId)) :
    List.Sublist ((d.filter p).map Prod.snd) (d.map Prod.snd) :=
  (List.filter_sublist d).map Prod.snd

/-- Nodup of an append is preserved by taking sublists on both sides. -/
theorem nodup_append_sublist {A A' V V' : List ConnId}
    (hA : List.Sublist A' A) (hV : List.Sublist V' V)
    (h : (A ++ V).Nodup) : (A' ++ V').Nodup :=
  (hA.append hV).nodup h

/-- Adding one freshly created connection to the available queue preserves
the pool invariant. -/
theorem poolInv_addFresh (s : PoolState) (h : PoolInv s) :
    PoolInv { s with available := s.available ++ [s.next_id],
                     next_id := s.next_id + 1 } := by
  obtain ⟨h1, h2, h3, h4, h5, h6⟩ := h
  refine ⟨?_, h2, ?_, ?_, ?_, ?_⟩
  · show ((s.available ++ [s.next_id]) ++ s.in_use.map Prod.snd).Nodup
    rw [List.nodup_append] at h1 ⊢
    obtain ⟨hA, hV, hd⟩ := h1
    refine ⟨?_, hV, ?_⟩
    · rw [List.nodup_append]
      refine ⟨hA, List.nodup_singleton _, ?_⟩
      intro a haA ha1
      rw [List.mem_singleton] at ha1
      subst ha1
      exact absurd (h4 _ haA) (lt_irrefl _)
    · intro a ha hav
      rcases List.mem_append.mp ha with ha | ha
      · exact hd ha hav
      · rw [List.mem_singleton] at ha
        subst ha
        exact absurd (h5 _ hav) (lt_irrefl _)
  · intro c hc
    rcases List.mem_append.mp hc with hc | hc
    · exact h3 c hc
    · rw [List.mem_singleton] at hc
      subst hc
      intro hN
      exact absurd (h6 _ hN) (lt_irrefl _)
  · intro c hc
    rcases List.mem_append.mp hc with hc | hc
    · exact Nat.lt_succ_of_lt (h4 c hc)
    · rw [List.mem_singleton] at hc
      subst hc
      exact Nat.lt_succ_self _
  · intro c hc
    exact Nat.lt_succ_of_lt (h5 c hc)
  · intro c hc
    exact Nat.lt_succ_of_lt (h6 c hc)

/-- The refill creation loop preserves the pool invariant. -/
theorem poolInv_refillLoop (n : Nat) :
    ∀ (s : PoolState) (oks : List Bool),
    PoolInv s → PoolInv (refillLoop s n oks) := by
  induction n with
  | zero => intro s oks h; exact h
  | succ n ih =>
    intro s oks h
    rw [refillLoop]
    by_cases hok : oks.headD false
    · rw [if_pos hok]
      exact ih _ _ (poolInv_addFresh s h)
    · rw [if_neg hok]
      exact ih _ _ h

/-- `_refill_pool` preserves the pool invariant. -/
theorem poolInv_refill_pool (s : PoolState) (oks : List Bool)
    (h : PoolInv s) : PoolInv (refill_pool s oks) := by
  unfold refill_pool
  by_cases hr : s.running
  · rw [if_pos hr]; exact poolInv_refillLoop _ s oks h
  · rw [if_neg hr]; exact h

/-- Handing the validated head of the available queue to a call preserves
the pool invariant. -/
theorem poolInv_handOutHead (s : PoolState) (sid : String) (c : ConnId)
    (rest : List ConnId) (hA : s.available = c :: rest) (h : PoolInv s) :
    PoolInv { s with available := rest,
                     in_use := dictInsert sid c s.in_use,
                     handed := c :: s.handed } := by
  obtain ⟨h1, h2, h3, h4, h5, h6⟩ := h
  rw [hA] at h1 h3 h4
  rw [List.cons_append, List.nodup_cons] at h1
  obtain ⟨hcNotIn, h1⟩ := h1
  have hcRest : c ∉ rest := fun hc =>
    hcNotIn (List.mem_append.mpr (Or.inl hc))
  have hcV : c ∉ s.in_use.map Prod.snd := fun hc =>
    hcNotIn (List.mem_append.mpr (Or.inr hc))
  rw [List.nodup_append] at h1
  obtain ⟨hrest, hV, hdisj⟩ := h1
  have hsub := filter_snd_sublist (fun p => p.1 ≠ sid) s.in_use
  refine ⟨?_, ?_, ?_, ?_, ?_, ?_⟩
  · show (rest ++ (dictInsert sid c s.in_use).map Prod.snd).Nodup
    rw [dictInsert_snd, List.nodup_append]
    refine ⟨hrest, ?_, ?_⟩
    · rw [List.nodup_cons]
      exact ⟨fun hc => hcV (hsub.subset hc), hV.sublist hsub⟩
    · intro a ha hac
      rcases List.mem_cons.mp hac with rfl | hac
      · exact hcRest ha
      · exact hdisj ha (hsub.subset hac)
  · show (c :: s.handed).Nodup
    rw [List.nodup_cons]
    exact ⟨h3 c (List.mem_cons_self _ _), h2⟩
  · intro a ha hmem
    rcases List.mem_cons.mp hmem with rfl | hmem
    · exact hcRest ha
    · exact h3 a (List.mem_cons_of_mem _ ha) hmem
  · intro a ha
    exact h4 a (List.mem_cons_of_mem _ ha)
  · intro a ha
    rw [dictInsert_snd] at ha
    rcases List.mem_cons.mp ha with rfl | ha
    · exact h4 a (List.mem_cons_self _ _)
    · exact h5 a (hsub.subset ha)
  · intro a ha
    rcases List.mem_cons.mp ha with rfl | ha
    · exact h4 a (List.mem_cons_self _ _)
    · exact h6 a ha

/-- Creating a fresh connection for a call — keeping only a sublist of the
available queue and recording anything in the closed history — preserves the
pool invariant. -/
theorem poolInv_createFresh (s : PoolState) (sid : String)
    (restA : List ConnId) (cl : List ConnId)
    (hrest : List.Sublist restA s.available) (h : PoolInv s) :
    PoolInv { s with available := restA,
                     in_use := dictInsert sid s.next_id s.in_use,
                     handed := s.next_id :: s.handed,
                     next_id := s.next_id + 1,
                     closed := cl } := by
  obtain ⟨h1, h2, h3, h4, h5, h6⟩ := h
  rw [List.nodup_append] at h1
  obtain ⟨hA, hV, hdisj⟩ := h1
  have hsub := filter_snd_sublist (fun p => p.1 ≠ sid) s.in_use
  refine ⟨?_, ?_, ?_, ?_, ?_, ?_⟩
  · show (restA ++ (dictInsert sid s.next_id s.in_use).map Prod.snd).Nodup
    rw [dictInsert_snd, List.nodup_append]
    refine ⟨hA.sublist hrest, ?_, ?_⟩
    · rw [List.nodup_cons]
      refine ⟨fun hc => ?_, hV.sublist hsub⟩
      exact absurd (h5 _ (hsub.subset hc)) (lt_irrefl _)
    · intro a ha hac
      rcases List.mem_cons.mp hac with rfl | hac
      · exact absurd (h4 _ (hrest.subset ha)) (lt_irrefl _)
      · exact hdisj (hrest.subset ha) (hsub.subset hac)
  · show (s.next_id :: s.handed).Nodup
    rw [List.nodup_cons]
    refine ⟨fun hc => ?_, h2⟩
    exact absurd (h6 _ hc) (lt_irrefl _)
  · intro a ha hmem
    rcases List.mem_cons.mp hmem with rfl | hmem
    · exact absurd (h4 _ (hrest.subset ha)) (lt_irrefl _)
    · exact h3 a (hrest.subset ha) hmem
  · intro a ha
    exact Nat.lt_succ_of_lt (h4 a (hrest.subset ha))
  · intro a ha
    rw [dictInsert_snd] at ha
    rcases List.mem_cons.mp ha with rfl | ha
    · exact Nat.lt_succ_self _
    · exact Nat.lt_succ_of_lt (h5 a (hsub.subset ha))
  · intro a ha
    rcases List.mem_cons.mp ha with rfl | ha
    · exact Nat.lt_succ_self _
    · exact Nat.lt_succ_of_lt (h6 a ha)

/-- Dropping connections from the available queue (and recording closings)
preserves the pool invariant. -/
theorem poolInv_dropAvailable (s : PoolState) (restA : List ConnId)
    (cl : List ConnId) (hrest : List.Sublist restA s.available)
    (h : PoolInv s) :
    PoolInv { s with available := restA, closed := cl } := by
  obtain ⟨h1, h2, h3, h4, h5, h6⟩ := h
  refine ⟨?_, h2, ?_, ?_, h5, h6⟩
  · exact nodup_append_sublist hrest (List.Sublist.refl _) h1
  · intro a ha
    exact h3 a (hrest.subset ha)
  · intro a ha
    exact h4 a (hrest.subset ha)

/-- `acquire` preserves the pool invariant. -/
theorem poolInv_acquire (s : PoolState) (sid : String) (conn : ConnId → Bool)
    (create_ok : Bool) (h : PoolInv s) :
    PoolInv (acquire s sid conn create_ok).2.1 := by
  unfold acquire
  cases hA : s.available with
  | nil =>
    by_cases hok : create_ok
    · rw [if_pos hok]
      exact poolInv_createFresh s sid [] s.closed
        (by rw [hA]) h
    · rw [if_neg hok]
      exact h
  | cons c rest =>
    dsimp only
    by_cases hc : conn c
    · rw [if_pos hc]
      exact poolInv_handOutHead s sid c rest hA h
    · rw [if_neg hc]
      by_cases hok : create_ok
      · rw [if_pos hok]
        exact poolInv_createFresh s sid rest (c :: s.closed)
          (by rw [hA]; exact List.sublist_cons_self _ _) h
      · rw [if_neg hok]
        exact poolInv_dropAvailable s rest (c :: s.closed)
          (by rw [hA]; exact List.sublist_cons_self _ _) h

/-- Removing in-use entries (and recording closings) preserves the pool
invariant. -/
theorem poolInv_filterInUse (s : PoolState) (p : String × ConnId → Bool)
    (cl : List ConnId) (h : PoolInv s) :
    PoolInv { s with in_use := s.in_use.filter p, closed := cl } := by
  obtain ⟨h1, h2, h3, h4, h5, h6⟩ := h
  refine ⟨?_, h2, h3, h4, ?_, h6⟩
  · exact nodup_append_sublist (List.Sublist.refl _)
      (filter_snd_sublist p s.in_use) h1
  · intro a ha
    exact h5 a ((filter_snd_sublist p s.in_use).subset ha)

/-- `release` preserves the pool invariant. -/
theorem poolInv_release (s : PoolState) (sid : String) (h : PoolInv s) :
    PoolInv (release s sid).1 := by
  unfold release dictPop
  cases hf : s.in_use.find? (fun p => p.1 = sid) with
  | none => exact h
  | some q =>
    dsimp only
    exact poolInv_filterInUse s _ _ h

/-- `stop` preserves the pool invariant. -/
theorem poolInv_stop (s : PoolState) (h : PoolInv s) : PoolInv (stop s).1 := by
  obtain ⟨h1, h2, h3, h4, h5, h6⟩ := h
  refine ⟨?_, h2, ?_, ?_, h5, h6⟩
  · show (([] : List ConnId) ++ s.in_use.map Prod.snd).Nodup
    rw [List.nil_append]
    exact (List.nodup_append.mp h1).2.1
  · intro a ha
    exact absurd ha (List.not_mem_nil a)
  · intro a ha
    exact absurd ha (List.not_mem_nil a)

/-- `start` preserves the pool invariant. -/
theorem poolInv_start (s : PoolState) (oks : List Bool) (h : PoolInv s) :
    PoolInv (start s oks).1 := by
  unfold start
  apply poolInv_refill_pool
  exact h

/-- Every pool operation preserves the pool invariant. -/
theorem poolInv_applyStep (s : PoolState) (st : PoolStep) (h : PoolInv s) :
    PoolInv (applyStep s st) := by
  cases st with
  | sStart oks => exact poolInv_start s oks h
  | sStop => exact poolInv_stop s h
  | sAcquire sid conn create_ok => exact poolInv_acquire s sid conn create_ok h
  | sRelease sid => exact poolInv_release s sid h
  | sRefill oks => exact poolInv_refill_pool s oks h

/-- The freshly constructed pool satisfies the invariant. -/
theorem poolInv_initPool (k : Nat) : PoolInv (initPool k) := by
  unfold PoolInv initPool
  refine ⟨?_, ?_, ?_, ?_, ?_, ?_⟩ <;> simp

/-- Auxiliary: running any operation sequence preserves the invariant. -/
theorem poolInv_runSteps_aux (steps : List PoolStep) :
    ∀ s : PoolState, PoolInv s → PoolInv (runSteps s steps) := by
  induction steps with
  | nil => intro s hs; exact hs
  | cons st rest ih =>
    intro s hs
    exact ih _ (poolInv_applyStep s st hs)

/-- Every state the pool reaches from its initial state satisfies the
invariant. -/
theorem poolInv_runSteps (k : Nat) (steps : List PoolStep) :
    PoolInv (runSteps (initPool k) steps) :=
  poolInv_runSteps_aux steps (initPool k) (poolInv_initPool k)

end GeminiConnectionPool

namespace GeminiConnectionPool

/-- A lookup in a dict from which every binding of `sid` has been filtered
out finds nothing. -/
theorem dictFind_filter_ne (sid : String) (d : List (String × ConnId)) :
    dictFind sid (d.filter (fun q => q.1 ≠ sid)) = none := by
  unfold dictFind
  have hnone : (d.filter (fun q => q.1 ≠ sid)).find?
      (fun p => p.1 = sid) = none := by
    rw [List.find?_eq_none]
    intro x hx
    rw [List.mem_filter] at hx
    simp only [decide_eq_true_eq] at hx ⊢
    exact hx.2
  rw [hnone]
  rfl

/-- Computation of `release` when the call sid has an in-use connection. -/
theorem release_found (s : PoolState) (sid : String) (q : String × ConnId)
    (hf : s.in_use.find? (fun p => p.1 = sid) = some q) :
    release s sid
      = ({ s with in_use := s.in_use.filter (fun p => p.1 ≠ sid),
                  closed := q.2 :: s.closed },
         [PoolEffect.closeConn q.2, PoolEffect.spawnRefill]) := by
  unfold release dictPop
  rw [hf]

end GeminiConnectionPool

/-- Claim C2, counterexample: after `stop()` a connection can be recorded as
in-use and closed at the same time, violating exactly-one-of
available / in-use / closed. Concretely: start a pool of size one (initial
fill succeeds), acquire the pre-warmed connection for call C1, then stop the
pool — connection 0 is closed by `stop` yet still recorded in the in-use
dict, which `stop` never clears. -/
theorem pool_stop_inuse_and_closed_counterexample :
    0 ∈ (GeminiConnectionPool.runSteps (GeminiConnectionPool.initPool 1)
          [GeminiConnectionPool.PoolStep.sStart [true],
           GeminiConnectionPool.PoolStep.sAcquire "C1" (fun _ => true) true,
           GeminiConnectionPool.PoolStep.sStop]).in_use.map Prod.snd
    ∧ 0 ∈ (GeminiConnectionPool.runSteps (GeminiConnectionPool.initPool 1)
          [GeminiConnectionPool.PoolStep.sStart [true],
           GeminiConnectionPool.PoolStep.sAcquire "C1" (fun _ => true) true,
           GeminiConnectionPool.PoolStep.sStop]).in_use.map Prod.snd
        ∩ (GeminiConnectionPool.runSteps (GeminiConnectionPool.initPool 1)
          [GeminiConnectionPool.PoolStep.sStart [true],
           GeminiConnectionPool.PoolStep.sAcquire "C1" (fun _ => true) true,
           GeminiConnectionPool.PoolStep.sStop]).closed := by
  decide

/-- Claim C2, amended: after any sequence of pool operations, each pooled
connection appears at most once across the available queue and the in-use
mapping (the two are duplicate-free and disjoint); the three-way exclusivity
with the closed state does not hold, because `stop()` closes the in-use
connections without removing them from the in-use mapping. -/
theorem pool_available_inuse_exclusive (k : Nat)
    (steps : List GeminiConnectionPool.PoolStep) :
    ((GeminiConnectionPool.runSteps (GeminiConnectionPool.initPool k)
        steps).available
      ++ (GeminiConnectionPool.runSteps (GeminiConnectionPool.initPool k)
        steps).in_use.map Prod.snd).Nodup :=
  (GeminiConnectionPool.poolInv_runSteps k steps).1

/-- Claim C3, counterexample: an acquire that hands out a freshly created
connection (empty available queue, creation succeeds) spawns no background
refill task — the fire-and-forget refill is only triggered on the pre-warmed
path. -/
theorem acquire_fresh_no_refill_counterexample :
    (GeminiConnectionPool.acquire (GeminiConnectionPool.initPool 2) "A"
        (fun _ => true) true).1 = some 0
    ∧ GeminiConnectionPool.PoolEffect.spawnRefill
        ∉ (GeminiConnectionPool.acquire (GeminiConnectionPool.initPool 2) "A"
            (fun _ => true) true).2.2 := by
  decide

/-- Claim C3, amended: `acquire` spawns a background refill task exactly when
it hands out a pre-warmed connection that validates as connected; on the
fresh-creation paths no refill is triggered. The refill is fire-and-forget:
acquire never runs it inline, so the available queue never grows during an
acquire. -/
theorem acquire_refill_exactly_on_prewarmed
    (s : GeminiConnectionPool.PoolState) (sid : String)
    (conn : GeminiConnectionPool.ConnId → Bool) (create_ok : Bool) :
    (GeminiConnectionPool.PoolEffect.spawnRefill
        ∈ (GeminiConnectionPool.acquire s sid conn create_ok).2.2 ↔
      ∃ c rest, s.available = c :: rest ∧ conn c = true)
    ∧ (GeminiConnectionPool.acquire s sid conn create_ok).2.1.available.length
        ≤ s.available.length := by
  unfold GeminiConnectionPool.acquire
  cases hA : s.available with
  | nil =>
    dsimp only
    by_cases hok : create_ok <;> simp [hok, hA]
  | cons c rest =>
    dsimp only
    by_cases hc : conn c
    · rw [if_pos hc]
      constructor
      · simp only [List.mem_singleton]
        constructor
        · intro _
          exact ⟨c, rest, rfl, hc⟩
        · intro _
          trivial
      · simp
    · rw [if_neg hc]
      by_cases hok : create_ok
      · rw [if_pos hok]
        constructor
        · simp only [List.mem_singleton]
          constructor
          · intro hmem
            simp at hmem
          · rintro ⟨c', rest', heq, hc'⟩
            rw [List.cons.injEq] at heq
            rw [heq.1] at hc
            exact absurd hc' hc
        · simp
      · rw [if_neg hok]
        constructor
        · constructor
          · intro hmem
            simp at hmem
          · rintro ⟨c', rest', heq, hc'⟩
            rw [List.cons.injEq] at heq
            rw [heq.1] at hc
            exact absurd hc' hc
        · simp

/-- Claim C6: backend connections are never reused across calls. In any state
the pool reaches, releasing a call sid with an in-use connection removes the
association and closes exactly that connection; and over the whole operation
history no connection is ever handed out by `acquire` twice — in particular a
connection acquired for one call id is never handed to a later acquire for a
different call id (`handed` records every connection `acquire` returned, and
it is duplicate-free). -/
theorem release_scoped_connections_no_reuse (k : Nat)
    (steps : List GeminiConnectionPool.PoolStep) (sid : String)
    (c : GeminiConnectionPool.ConnId)
    (h : GeminiConnectionPool.dictFind sid
          (GeminiConnectionPool.runSteps (GeminiConnectionPool.initPool k)
            steps).in_use = some c) :
    GeminiConnectionPool.dictFind sid
        ((GeminiConnectionPool.release
          (GeminiConnectionPool.runSteps (GeminiConnectionPool.initPool k)
            steps) sid).1).in_use = none
    ∧ GeminiConnectionPool.PoolEffect.closeConn c
        ∈ (GeminiConnectionPool.release
          (GeminiConnectionPool.runSteps (GeminiConnectionPool.initPool k)
            steps) sid).2
    ∧ (GeminiConnectionPool.runSteps (GeminiConnectionPool.initPool k)
        steps).handed.Nodup := by
  rcases hf : (GeminiConnectionPool.runSteps (GeminiConnectionPool.initPool k)
      steps).in_use.find? (fun p => p.1 = sid) with _ | q
  · unfold GeminiConnectionPool.dictFind at h
    rw [hf] at h
    simp at h
  · have hq : q.2 = c := by
      unfold GeminiConnectionPool.dictFind at h
      rw [hf] at h
      simpa using h
    rw [GeminiConnectionPool.release_found _ sid q hf]
    refine ⟨GeminiConnectionPool.dictFind_filter_ne sid _, ?_,
      (GeminiConnectionPool.poolInv_runSteps k steps).2.1⟩
    rw [hq]
    exact List.mem_cons_self _ _

/-- Witness for the C6 theorem: start a pool of size one, acquire the
pre-warmed connection 0 for call A; releasing A closes 0, the association is
gone, and the hand-out history is duplicate-free. -/
theorem release_scoped_connections_no_reuse_witness :
    GeminiConnectionPool.dictFind "A"
        ((GeminiConnectionPool.release
          (GeminiConnectionPool.runSteps (GeminiConnectionPool.initPool 1)
            [GeminiConnectionPool.PoolStep.sStart [true],
             GeminiConnectionPool.PoolStep.sAcquire "A" (fun _ => true) true])
          "A").1).in_use = none
    ∧ GeminiConnectionPool.PoolEffect.closeConn 0
        ∈ (GeminiConnectionPool.release
          (GeminiConnectionPool.runSteps (GeminiConnectionPool.initPool 1)
            [GeminiConnectionPool.PoolStep.sStart [true],
             GeminiConnectionPool.PoolStep.sAcquire "A" (fun _ => true) true])
          "A").2
    ∧ (GeminiConnectionPool.runSteps (GeminiConnectionPool.initPool 1)
        [GeminiConnectionPool.PoolStep.sStart [true],
         GeminiConnectionPool.PoolStep.sAcquire "A" (fun _ => true) true]).handed.Nodup :=
  release_scoped_connections_no_reuse 1
    [GeminiConnectionPool.PoolStep.sStart [true],
     GeminiConnectionPool.PoolStep.sAcquire "A" (fun _ => true) true]
    "A" 0 (by decide)

/-- Claim C10: releasing a call id that has no in-use connection is a
harmless no-op: the state (available queue, in-use mapping, closed history)
is returned unchanged and no effect occurs — no close, no refill task. -/
theorem release_unknown_id_noop (s : GeminiConnectionPool.PoolState)
    (sid : String)
    (h : GeminiConnectionPool.dictFind sid s.in_use = none) :
    GeminiConnectionPool.release s sid = (s, []) := by
  unfold GeminiConnectionPool.dictFind at h
  unfold GeminiConnectionPool.release GeminiConnectionPool.dictPop
  rcases hf : s.in_use.find? (fun p => p.1 = sid) with _ | q
  · rw [hf]
  · rw [hf] at h
    simp at h

/-- Witness for the C10 theorem: releasing call A on a pool whose in-use
mapping only holds call B leaves everything unchanged with no effects. -/
theorem release_unknown_id_noop_witness :
    GeminiConnectionPool.release
        { pool_size := 2, available := [3], in_use := [("B", 5)],
          running := true, closed := [], handed := [5],
          next_id := 6 } "A"
      = ({ pool_size := 2, available := [3], in_use := [("B", 5)],
           running := true, closed := [], handed := [5],
           next_id := 6 }, []) :=
  release_unknown_id_noop
    { pool_size := 2, available := [3], in_use := [("B", 5)],
      running := true, closed := [], handed := [5], next_id := 6 }
    "A" (by decide)
